import Mathlib

/-!
Verification of the diagnostic-mapper and language-registry logic of a
browser code editor.  The source (src/constants.js and the CodeEditor
component) splits an execution result's stderr on newlines, matches each
line against the regex /line (\d+)/, and collects `errorMap[n-1] = line`
into a plain JavaScript object; Monaco decorations and the error list are
then derived from `Object.keys(errorMap)`.  The embedding below models
the string scanning, the JavaScript-object key semantics (in-place
overwrite, array-index keys enumerated in ascending numeric order before
other keys in insertion order) and the surrounding runCode state update.
-/

namespace CodeEditor

/-- The `LANGUAGE_VERSIONS` table of src/constants.js, as an association
list in source order. -/
def LANGUAGE_VERSIONS : List (String × String) :=
  [("python", "3.10.0"), ("java", "15.0.2")]

/-- The `CODE_SNIPPETS` table of src/constants.js, as an association list
in source order, with the template-literal escapes expanded exactly as
JavaScript does. -/
def CODE_SNIPPETS : List (String × String) :=
  [ ("python", "\ndef greet(name):\n\tprint(\"Hello, \" + name + \"!\")\n\ngreet(\"Aro\")\n"),
    ("java", "\npublic class HelloWorld \x7b\n\tpublic static void main(String[] args) \x7b\n\t\tSystem.out.println(\"Hello World\");\n\t\x7d\n\x7d\n"),
    ("javascript", "\nfunction greet(name) \x7b\n\tconsole.log(\"Hello, \" + name + \"!\");\n\x7d\n\ngreet(\"Aro\");\n"),
    ("typescript", "\ntype Params = \x7b\n\tname: string;\n\x7d\n\nfunction greet(data: Params) \x7b\n\tconsole.log(\"Hello, \" + data.name + \"!\");\n\x7d\n\ngreet(\x7b name: \"Aro\" \x7d);\n"),
    ("csharp", "using System;\n\nnamespace HelloWorld\n\x7b\n\tclass Hello \x7b \n\t\tstatic void Main(string[] args) \x7b\n\t\t\tConsole.WriteLine(\"Hello World in C#\");\n\t\t\x7d\n\t\x7d\n\x7d\n"),
    ("php", "<?php\n\n$name = \x27Aro\x27;\necho $name;\n") ]

/-- JavaScript property access `CODE_SNIPPETS[language]`: `none` models
`undefined` for an unknown key. -/
def getSnippet (languageId : String) : Option String :=
  CODE_SNIPPETS.lookup languageId

/-- JavaScript property access `LANGUAGE_VERSIONS[language]`. -/
def getVersion (languageId : String) : Option String :=
  LANGUAGE_VERSIONS.lookup languageId

/-- JavaScript `str.split("\n")`: splits on every newline character,
keeping empty segments; the empty string splits to `[""]`. -/
def splitLinesAux : List Char → List Char → List String
  | [], acc => [String.mk acc.reverse]
  | c :: rest, acc =>
    if c = '\n' then String.mk acc.reverse :: splitLinesAux rest []
    else splitLinesAux rest (c :: acc)

/-- Split a string into lines exactly as `stderr.split("\n")` does. -/
def splitLines (s : String) : List String :=
  splitLinesAux s.data []

/-- Numeric value of a run of decimal digits, as `parseInt(ds, 10)`
computes it for a digit string. -/
def digitsVal (ds : List Char) : Nat :=
  ds.foldl (fun a c => a * 10 + (c.toNat - 48)) 0

/-- Attempt of the regex `/line (\d+)/` anchored at the head of the
character list: the literal characters `l`, `i`, `n`, `e`, space, then at
least one decimal digit; returns the value of the maximal digit run. -/
def matchLineAt : List Char → Option Nat
  | 'l' :: 'i' :: 'n' :: 'e' :: ' ' :: rest =>
    let ds := rest.takeWhile Char.isDigit
    if ds.isEmpty then none else some (digitsVal ds)
  | _ => none

/-- Leftmost match of `/line (\d+)/` in a character list: the regex
engine tries each start position from the left. -/
def findLineNumAux : List Char → Option Nat
  | [] => none
  | c :: rest =>
    match matchLineAt (c :: rest) with
    | some n => some n
    | none => findLineNumAux rest

/-- The value, if any, captured by `line.match(/line (\d+)/)` followed by
`parseInt(match[1], 10)`. -/
def findLineNum (line : String) : Option Nat :=
  findLineNumAux line.data

/-- The zero-based key `parseInt(match[1], 10) - 1` stored into
`errorMap`, when the line matches. -/
def keyOf (line : String) : Option Int :=
  (findLineNum line).map (fun n => (n : Int) - 1)

/-- JavaScript object assignment `errorMap[k] = v` on an insertion-ordered
association list: an existing key keeps its position and gets the new
value; a new key is appended at the end. -/
def insertDiag : List (Int × String) → Int → String → List (Int × String)
  | [], k, v => [(k, v)]
  | (k0, v0) :: rest, k, v =>
    if k0 = k then (k0, v) :: rest
    else (k0, v0) :: insertDiag rest k v

/-- The body of the `errorLines.forEach` callback: a line matching
`/line (\d+)/` is recorded at key `n - 1`, other lines are dropped. -/
def processStep (m : List (Int × String)) (line : String) : List (Int × String) :=
  match keyOf line with
  | some k => insertDiag m k line
  | none => m

/-- Folding the forEach over the split stderr lines, starting from the
fresh empty `errorMap`. -/
def processLines (ls : List String) : List (Int × String) :=
  ls.foldl processStep []

/-- The diagnostic mapper: `result.run.stderr ? stderr.split("\n") : []`
followed by the forEach that fills `errorMap`. -/
def extractDiagnostics (stderr : String) : List (Int × String) :=
  if stderr = "" then [] else processLines (splitLines stderr)

/-- The mapper lifted to a possibly absent stderr field (`undefined` and
the empty string are both falsy in JavaScript). -/
def extractDiagnosticsOpt : Option String → List (Int × String)
  | none => []
  | some s => extractDiagnostics s

/-- Whether an integer key of a JavaScript object is an array index
(a canonical numeric string in the range `[0, 2^32 - 1)`); such keys are
enumerated first, in ascending numeric order. -/
def isArrayIndex (k : Int) : Bool :=
  0 ≤ k && k < 4294967295

/-- The order `Object.keys(errorMap)` enumerates the keys: array-index
keys ascending numerically, then the remaining keys in insertion order. -/
def objKeys (m : List (Int × String)) : List Int :=
  List.insertionSort (· ≤ ·) ((m.map Prod.fst).filter (fun k => isArrayIndex k))
    ++ (m.map Prod.fst).filter (fun k => ! isArrayIndex k)

/-- One Monaco decoration built in runCode: a whole-line range at
`lineNumber + 1` carrying the mapped message as hover text. -/
structure Annot where
  displayLine : Int
  rangeStartLine : Int
  rangeEndLine : Int
  wholeLine : Bool
  message : String
deriving DecidableEq, Repr

/-- The decoration array: `Object.keys(errorMap).map(lineNumber => ...)`
with `range = Range(n + 1, 1, n + 1, 1)`, `isWholeLine: true` and
`hoverMessage: errorMap[lineNumber]`. -/
def toAnnots (m : List (Int × String)) : List Annot :=
  (objKeys m).map (fun k =>
    { displayLine := k + 1
      rangeStartLine := k + 1
      rangeEndLine := k + 1
      wholeLine := true
      message := (m.lookup k).getD "" })

/-- The `result.run` record returned by the execution service; absent
fields are `none`. -/
structure RunOutcome where
  stdout : Option String
  stderr : Option String
deriving DecidableEq

/-- The component state touched by runCode: the `errors` map and the
`output` string. -/
structure EditorState where
  errors : List (Int × String)
  output : String
deriving DecidableEq

/-- One invocation of runCode: an empty source returns early; a rejected
`executeCode` call is caught (and only logged), leaving the state
unchanged; a successful result replaces `errors` with the extracted map
and `output` with `result.run.stdout || ""`. -/
def runCodeStep (sourceCode : String) (res : Except String RunOutcome)
    (st : EditorState) : EditorState :=
  if sourceCode = "" then st
  else
    match res with
    | .error _ => st
    | .ok r =>
      { errors := extractDiagnosticsOpt r.stderr
        output := r.stdout.getD "" }

/-- The final value held at key `k` after the forEach: the last line in
stream order whose match maps to `k`, if any. -/
def lastMatch (ls : List String) (k : Int) : Option String :=
  ls.foldl (fun acc l => if keyOf l = some k then some l else acc) none

/-! ### Association-list lemmas about the errorMap object -/

theorem lookup_insertDiag (m : List (Int × String)) (k0 : Int) (v : String) (k : Int) :
    (insertDiag m k0 v).lookup k = if k = k0 then some v else m.lookup k := by
  induction m with
  | nil =>
    by_cases h : k = k0
    · subst h
      simp [insertDiag, List.lookup_cons]
    · simp [insertDiag, List.lookup_cons, beq_false_of_ne h, h]
  | cons p rest ih =>
    obtain ⟨a, b⟩ := p
    by_cases h : a = k0
    · subst h
      by_cases h2 : k = a
      · subst h2
        simp [insertDiag, List.lookup_cons]
      · simp [insertDiag, List.lookup_cons, beq_false_of_ne h2, h2]
    · by_cases h2 : k = a
      · subst h2
        simp [insertDiag, List.lookup_cons, h]
      · simp [insertDiag, h, List.lookup_cons, beq_false_of_ne h2, h2, ih]

theorem keys_insertDiag (m : List (Int × String)) (k0 : Int) (v : String) :
    (insertDiag m k0 v).map Prod.fst =
      if k0 ∈ m.map Prod.fst then m.map Prod.fst else m.map Prod.fst ++ [k0] := by
  induction m with
  | nil => simp [insertDiag]
  | cons p rest ih =>
    obtain ⟨a, b⟩ := p
    by_cases h : a = k0
    · subst h
      simp [insertDiag]
    · by_cases h2 : k0 ∈ rest.map Prod.fst <;>
        simp [insertDiag, h, Ne.symm h, h2, ih]

theorem nodup_keys_insertDiag (m : List (Int × String)) (k0 : Int) (v : String)
    (h : (m.map Prod.fst).Nodup) : ((insertDiag m k0 v).map Prod.fst).Nodup := by
  rw [keys_insertDiag]
  by_cases h2 : k0 ∈ m.map Prod.fst
  · simpa [h2]
  · simp [h2, List.nodup_append, h]

theorem mem_keys_insertDiag (m : List (Int × String)) (k0 : Int) (v : String) (k : Int)
    (h : k ∈ (insertDiag m k0 v).map Prod.fst) : k = k0 ∨ k ∈ m.map Prod.fst := by
  rw [keys_insertDiag] at h
  by_cases h2 : k0 ∈ m.map Prod.fst
  · rw [if_pos h2] at h
    exact Or.inr h
  · rw [if_neg h2] at h
    rcases List.mem_append.mp h with h3 | h3
    · exact Or.inr h3
    · simp at h3
      exact Or.inl h3

theorem lookup_eq_none_of_not_mem_keys {α β : Type} [BEq α] [LawfulBEq α]
    (es : List (α × β)) (a : α) (h : a ∉ es.map Prod.fst) : es.lookup a = none := by
  induction es with
  | nil => rfl
  | cons p rest ih =>
    obtain ⟨x, y⟩ := p
    rw [List.map_cons] at h
    have hx : a ≠ x := fun hax => h (List.mem_cons.mpr (Or.inl hax))
    have hr : a ∉ rest.map Prod.fst := fun hm => h (List.mem_cons.mpr (Or.inr hm))
    simp [List.lookup_cons, beq_false_of_ne hx, ih hr]

theorem lookup_isSome_of_mem_keys {α β : Type} [BEq α] [LawfulBEq α]
    (es : List (α × β)) (a : α) (h : a ∈ es.map Prod.fst) : ∃ b, es.lookup a = some b := by
  induction es with
  | nil => simp at h
  | cons p rest ih =>
    obtain ⟨x, y⟩ := p
    by_cases h2 : a = x
    · subst h2
      exact ⟨y, by simp [List.lookup_cons]⟩
    · rw [List.map_cons] at h
      rcases List.mem_cons.mp h with h3 | h3
      · exact absurd h3 h2
      · obtain ⟨b, hb⟩ := ih h3
        exact ⟨b, by simp [List.lookup_cons, beq_false_of_ne h2, hb]⟩

/-! ### The fold that fills the errorMap -/

theorem lookup_processStep (m : List (Int × String)) (line : String) (k : Int) :
    (processStep m line).lookup k =
      if keyOf line = some k then some line else m.lookup k := by
  unfold processStep
  cases h : keyOf line with
  | none => simp [h]
  | some k0 =>
    rw [lookup_insertDiag]
    by_cases h2 : k = k0
    · subst h2
      simp
    · rw [if_neg h2, if_neg (fun hk => h2 (Option.some.inj hk).symm)]

theorem lookup_foldl_processStep (ls : List String) (m : List (Int × String)) (k : Int) :
    (List.foldl processStep m ls).lookup k =
      List.foldl (fun acc l => if keyOf l = some k then some l else acc) (m.lookup k) ls := by
  induction ls generalizing m with
  | nil => rfl
  | cons l rest ih =>
    simp only [List.foldl_cons]
    rw [ih, lookup_processStep]

theorem keyOf_empty : keyOf "" = none := rfl

theorem lookup_extractDiagnostics (s : String) (k : Int) :
    (extractDiagnostics s).lookup k = lastMatch (splitLines s) k := by
  unfold extractDiagnostics
  by_cases h : s = ""
  · subst h
    show (none : Option String) = lastMatch [""] k
    simp [lastMatch, keyOf_empty]
  · rw [if_neg h]
    unfold processLines lastMatch
    rw [lookup_foldl_processStep]
    rfl

theorem nodup_keys_foldl (ls : List String) (m : List (Int × String))
    (h : (m.map Prod.fst).Nodup) :
    ((List.foldl processStep m ls).map Prod.fst).Nodup := by
  induction ls generalizing m with
  | nil => exact h
  | cons l rest ih =>
    simp only [List.foldl_cons]
    apply ih
    unfold processStep
    cases hk : keyOf l with
    | none => exact h
    | some k0 => exact nodup_keys_insertDiag m k0 l h

theorem nodup_keys_extractDiagnostics (s : String) :
    ((extractDiagnostics s).map Prod.fst).Nodup := by
  unfold extractDiagnostics
  by_cases h : s = ""
  · simp [h]
  · rw [if_neg h]
    exact nodup_keys_foldl _ [] (by simp)

theorem mem_keys_foldl (ls : List String) (m : List (Int × String)) (k : Int)
    (h : k ∈ (List.foldl processStep m ls).map Prod.fst) :
    k ∈ m.map Prod.fst ∨ ∃ l ∈ ls, keyOf l = some k := by
  induction ls generalizing m with
  | nil => exact Or.inl h
  | cons l rest ih =>
    simp only [List.foldl_cons] at h
    rcases ih (processStep m l) h with h2 | h2
    · unfold processStep at h2
      cases hk : keyOf l with
      | none =>
        rw [hk] at h2
        exact Or.inl h2
      | some k0 =>
        rw [hk] at h2
        rcases mem_keys_insertDiag m k0 l k h2 with h3 | h3
        · exact Or.inr ⟨l, List.mem_cons_self l rest, h3 ▸ hk⟩
        · exact Or.inl h3
    · obtain ⟨l2, hl2, hk2⟩ := h2
      exact Or.inr ⟨l2, List.mem_cons_of_mem l hl2, hk2⟩

theorem mem_keys_extractDiagnostics (s : String) (k : Int)
    (h : k ∈ (extractDiagnostics s).map Prod.fst) :
    ∃ l ∈ splitLines s, keyOf l = some k := by
  unfold extractDiagnostics at h
  by_cases h2 : s = ""
  · rw [if_pos h2] at h
    simp at h
  · rw [if_neg h2] at h
    rcases mem_keys_foldl _ [] k h with h3 | h3
    · simp at h3
    · exact h3

theorem foldl_last_isSome (ls : List String) (k : Int) (acc : Option String)
    (h : (∃ l ∈ ls, keyOf l = some k) ∨ acc.isSome) :
    (List.foldl (fun acc l => if keyOf l = some k then some l else acc) acc ls).isSome := by
  induction ls generalizing acc with
  | nil =>
    rcases h with ⟨l, hl, _⟩ | h
    · simp at hl
    · exact h
  | cons l rest ih =>
    simp only [List.foldl_cons]
    apply ih
    rcases h with ⟨l2, hl2, hk2⟩ | h
    · rcases List.mem_cons.mp hl2 with h3 | h3
      · subst h3
        right
        simp [hk2]
      · exact Or.inl ⟨l2, h3, hk2⟩
    · right
      by_cases hc : keyOf l = some k <;> simp [hc, h]

theorem foldl_last_mem (ls : List String) (k : Int) (acc : Option String) (msg : String)
    (h : List.foldl (fun acc l => if keyOf l = some k then some l else acc) acc ls = some msg) :
    (msg ∈ ls ∧ keyOf msg = some k) ∨ acc = some msg := by
  induction ls generalizing acc with
  | nil => exact Or.inr h
  | cons l rest ih =>
    simp only [List.foldl_cons] at h
    rcases ih _ h with ⟨hmem, hk⟩ | h2
    · exact Or.inl ⟨List.mem_cons_of_mem _ hmem, hk⟩
    · by_cases hc : keyOf l = some k
      · rw [if_pos hc] at h2
        obtain rfl := Option.some.inj h2
        exact Or.inl ⟨List.mem_cons_self _ _, hc⟩
      · rw [if_neg hc] at h2
        exact Or.inr h2

theorem lastMatch_exists (ls : List String) (k : Int) (l : String)
    (hmem : l ∈ ls) (hk : keyOf l = some k) :
    ∃ msg, lastMatch ls k = some msg ∧ msg ∈ ls ∧ keyOf msg = some k := by
  have h1 := foldl_last_isSome ls k none (Or.inl ⟨l, hmem, hk⟩)
  obtain ⟨msg, hmsg⟩ := Option.isSome_iff_exists.mp h1
  refine ⟨msg, hmsg, ?_⟩
  rcases foldl_last_mem ls k none msg hmsg with h2 | h2
  · exact h2
  · cases h2

theorem keyOf_eq_some (l : String) (n : Nat) (h : findLineNum l = some n) :
    keyOf l = some ((n : Int) - 1) := by
  simp [keyOf, h]

theorem findLineNum_of_keyOf (l : String) (n : Nat)
    (h : keyOf l = some ((n : Int) - 1)) : findLineNum l = some n := by
  unfold keyOf at h
  cases hf : findLineNum l with
  | none =>
    rw [hf] at h
    simp at h
  | some n2 =>
    rw [hf] at h
    simp at h
    have hn : n2 = n := by omega
    rw [hn]

theorem foldl_processStep_no_match (ls : List String) (m : List (Int × String))
    (h : ∀ l ∈ ls, keyOf l = none) : List.foldl processStep m ls = m := by
  induction ls generalizing m with
  | nil => rfl
  | cons l rest ih =>
    simp only [List.foldl_cons]
    have hl := h l (List.mem_cons_self l rest)
    have hstep : processStep m l = m := by
      unfold processStep
      rw [hl]
    rw [hstep]
    exact ih _ (fun l2 hl2 => h l2 (List.mem_cons_of_mem l hl2))

/-! ### Object.keys ordering -/

theorem mem_objKeys (m : List (Int × String)) (k : Int) :
    k ∈ objKeys m ↔ k ∈ m.map Prod.fst := by
  unfold objKeys
  rw [List.mem_append, List.mem_insertionSort]
  constructor
  · rintro (h | h) <;> exact (List.mem_filter.mp h).1
  · intro h
    by_cases hA : isArrayIndex k
    · exact Or.inl (List.mem_filter.mpr ⟨h, hA⟩)
    · exact Or.inr (List.mem_filter.mpr ⟨h, by simp [hA]⟩)

theorem objKeys_arrayIndex_sorted (m : List (Int × String)) :
    List.Sorted (· ≤ ·) ((objKeys m).filter (fun k => isArrayIndex k)) := by
  unfold objKeys
  rw [List.filter_append]
  have h1 : ((m.map Prod.fst).filter (fun k => ! isArrayIndex k)).filter
      (fun k => isArrayIndex k) = [] := by
    rw [List.filter_eq_nil_iff]
    intro a ha
    have h2 := (List.mem_filter.mp ha).2
    simp at h2
    simp [h2]
  have h2 : (List.insertionSort (· ≤ ·)
        ((m.map Prod.fst).filter (fun k => isArrayIndex k))).filter
      (fun k => isArrayIndex k) =
      List.insertionSort (· ≤ ·) ((m.map Prod.fst).filter (fun k => isArrayIndex k)) := by
    rw [List.filter_eq_self]
    intro a ha
    rw [List.mem_insertionSort] at ha
    exact (List.mem_filter.mp ha).2
  rw [h1, h2, List.append_nil]
  exact List.sorted_insertionSort _ _

theorem objKeys_insertDiag_mem (m : List (Int × String)) (k0 : Int) (v : String)
    (h : k0 ∈ m.map Prod.fst) : objKeys (insertDiag m k0 v) = objKeys m := by
  unfold objKeys
  rw [keys_insertDiag, if_pos h]

theorem toAnnots_displayLines (m : List (Int × String)) :
    (toAnnots m).map Annot.displayLine = (objKeys m).map (fun k => k + 1) := by
  unfold toAnnots
  rw [List.map_map]
  rfl

/-! ### Claim theorems -/

/-- C1: every stderr line containing "line " followed by digits (first
occurrence, case-sensitive) gets a diagnostic recorded at the parsed
1-based number minus 1 whose message is that full line (the recording
step stores the line itself, and the final map holds, at that key, a
line of the input matching the same number); the Python NameError
example yields exactly one diagnostic at lineIndex 2 whose message is
the first line verbatim, and a "line 1" match yields lineIndex 0. -/
theorem extractDiagnostics_records (s line : String) (n : Nat)
    (hmem : line ∈ splitLines s) (hmatch : findLineNum line = some n) :
    (∀ m : List (Int × String),
      (processStep m line).lookup ((n : Int) - 1) = some line) ∧
    (∃ msg, (extractDiagnostics s).lookup ((n : Int) - 1) = some msg ∧
      msg ∈ splitLines s ∧ findLineNum msg = some n) ∧
    extractDiagnostics
        "File \"a.py\", line 3\n    print(x)\nNameError: name \x27x\x27 is not defined" =
      [(2, "File \"a.py\", line 3")] ∧
    extractDiagnostics "line 1" = [(0, "line 1")] := by
  refine ⟨?_, ?_, by decide, by decide⟩
  · intro m
    rw [lookup_processStep, if_pos (keyOf_eq_some line n hmatch)]
  · obtain ⟨msg, h1, h2, h3⟩ :=
      lastMatch_exists (splitLines s) ((n : Int) - 1) line hmem
        (keyOf_eq_some line n hmatch)
    exact ⟨msg, by rw [lookup_extractDiagnostics]; exact h1, h2,
      findLineNum_of_keyOf msg n h3⟩

/-- Witness for C1 at the boundary input "line 1". -/
theorem extractDiagnostics_records_witness :
    ("line 1" ∈ splitLines "line 1") ∧ findLineNum "line 1" = some 1 ∧
      (∃ msg, (extractDiagnostics "line 1").lookup ((1 : Int) - 1) = some msg ∧
        msg ∈ splitLines "line 1" ∧ findLineNum msg = some 1) :=
  ⟨by decide, by decide,
    (extractDiagnostics_records "line 1" "line 1" 1 (by decide) (by decide)).2.1⟩

/-- C2: the map holds, at every key, the last matching line in stream
order (last-write-wins); keys are not duplicated, so two stderr lines
both carrying "line 5" leave exactly one entry at lineIndex 4 whose
message is the later line. -/
theorem extractDiagnostics_lastWriteWins :
    (∀ (s : String) (k : Int),
      (extractDiagnostics s).lookup k = lastMatch (splitLines s) k) ∧
    (∀ s : String, ((extractDiagnostics s).map Prod.fst).Nodup) ∧
    extractDiagnostics "warning: line 5 unused variable\nerror: line 5 undefined name" =
      [(4, "error: line 5 undefined name")] :=
  ⟨lookup_extractDiagnostics, nodup_keys_extractDiagnostics, by decide⟩

/-- C3: when no stderr line matches "line " followed by digits, the
diagnostic map is empty; the empty string and an absent stderr also
yield the empty map. -/
theorem extractDiagnostics_empty_of_no_match :
    (∀ s : String, (∀ l ∈ splitLines s, findLineNum l = none) →
      extractDiagnostics s = []) ∧
    extractDiagnostics "" = [] ∧ extractDiagnosticsOpt none = [] := by
  refine ⟨?_, by decide, rfl⟩
  intro s h
  unfold extractDiagnostics
  by_cases h2 : s = ""
  · rw [if_pos h2]
  · rw [if_neg h2]
    unfold processLines
    exact foldl_processStep_no_match _ _ (fun l hl => by simp [keyOf, h l hl])

/-- Witness for C3 on a stderr with no matching line. -/
theorem extractDiagnostics_empty_of_no_match_witness :
    (∀ l ∈ splitLines "SyntaxError\n  somewhere", findLineNum l = none) ∧
      extractDiagnostics "SyntaxError\n  somewhere" = [] :=
  ⟨by decide,
    extractDiagnostics_empty_of_no_match.1 "SyntaxError\n  somewhere" (by decide)⟩

/-- C4: every lineIndex present in a produced diagnostic map projects
through the decoration builder to an element with displayLine equal to
lineIndex + 1, a whole-line range starting and ending at displayLine,
and the diagnostic message as hover text. -/
theorem toAnnots_roundTrip (s : String) (k : Int)
    (hk : k ∈ (extractDiagnostics s).map Prod.fst) :
    ∃ a ∈ toAnnots (extractDiagnostics s),
      a.displayLine = k + 1 ∧ a.rangeStartLine = a.displayLine ∧
      a.rangeEndLine = a.displayLine ∧ a.wholeLine = true ∧
      (extractDiagnostics s).lookup k = some a.message := by
  obtain ⟨v, hv⟩ := lookup_isSome_of_mem_keys _ k hk
  refine ⟨{ displayLine := k + 1
            rangeStartLine := k + 1
            rangeEndLine := k + 1
            wholeLine := true
            message := ((extractDiagnostics s).lookup k).getD "" },
    ?_, rfl, rfl, rfl, rfl, ?_⟩
  · unfold toAnnots
    exact List.mem_map.mpr ⟨k, (mem_objKeys _ k).mpr hk, rfl⟩
  · rw [hv]
    rfl

/-- Witness for C4 on a concrete run. -/
theorem toAnnots_roundTrip_witness :
    ((2 : Int) ∈ (extractDiagnostics "boom at line 3").map Prod.fst) ∧
      ∃ a ∈ toAnnots (extractDiagnostics "boom at line 3"),
        a.displayLine = (2 : Int) + 1 ∧ a.rangeStartLine = a.displayLine ∧
        a.rangeEndLine = a.displayLine ∧ a.wholeLine = true ∧
        (extractDiagnostics "boom at line 3").lookup 2 = some a.message :=
  ⟨by decide, toAnnots_roundTrip "boom at line 3" 2 (by decide)⟩

/-- C5 as stated is false: for the stderr "first error line 5\nsecond
error line 2" the mapping's insertion order is key 4 then key 1, but the
annotation sequence enumerates display lines 2 then 5 (ascending), so it
does not follow insertion order. -/
theorem annots_insertion_order_counterexample :
    (extractDiagnostics "first error line 5\nsecond error line 2").map Prod.fst =
      [4, 1] ∧
    (toAnnots (extractDiagnostics "first error line 5\nsecond error line 2")).map
      Annot.displayLine = [2, 5] ∧
    (toAnnots (extractDiagnostics "first error line 5\nsecond error line 2")).map
      Annot.displayLine ≠
      ((extractDiagnostics "first error line 5\nsecond error line 2").map
        Prod.fst).map (fun k => k + 1) := by
  refine ⟨by decide, by decide, by decide⟩

/-- C5 amended: the annotation sequence follows the JavaScript
Object.keys enumeration — array-index lineIndexes in ascending numeric
order first, then the remaining keys in insertion order — and a later
overwrite of an existing lineIndex does not reorder the sequence. -/
theorem annots_order_objKeys :
    (∀ m : List (Int × String),
      (toAnnots m).map Annot.displayLine = (objKeys m).map (fun k => k + 1)) ∧
    (∀ s : String, List.Sorted (· ≤ ·)
      ((objKeys (extractDiagnostics s)).filter (fun k => isArrayIndex k))) ∧
    (∀ (m : List (Int × String)) (k0 : Int) (v : String),
      k0 ∈ m.map Prod.fst → objKeys (insertDiag m k0 v) = objKeys m) :=
  ⟨toAnnots_displayLines, fun s => objKeys_arrayIndex_sorted (extractDiagnostics s),
    objKeys_insertDiag_mem⟩

/-- Witness for C5 amended: an overwrite on a concrete map keeps the
enumeration unchanged. -/
theorem annots_order_objKeys_witness :
    ((4 : Int) ∈ ([(4, "old"), (1, "other")] : List (Int × String)).map Prod.fst) ∧
      objKeys (insertDiag [(4, "old"), (1, "other")] 4 "new") =
        objKeys [(4, "old"), (1, "other")] :=
  ⟨by decide, annots_order_objKeys.2.2 [(4, "old"), (1, "other")] 4 "new" (by decide)⟩

/-- C6 as stated is false: the stderr "line 0" matches the heuristic
with digit run 0 and is recorded at lineIndex -1, a negative index. -/
theorem lineIndex_nonneg_counterexample :
    (extractDiagnostics "line 0").map Prod.fst = [-1] ∧ ¬ (0 : Int) ≤ -1 := by
  refine ⟨by decide, by decide⟩

/-- C6 amended: every lineIndex in a produced map equals a matched
number minus one, hence is at least -1, and is nonnegative whenever the
matched number is at least 1. -/
theorem lineIndex_lower_bound (s : String) (k : Int)
    (hk : k ∈ (extractDiagnostics s).map Prod.fst) :
    -1 ≤ k ∧ ∃ n : Nat, k = (n : Int) - 1 ∧ (1 ≤ n → 0 ≤ k) := by
  obtain ⟨l, hl, hkey⟩ := mem_keys_extractDiagnostics s k hk
  unfold keyOf at hkey
  cases hf : findLineNum l with
  | none =>
    rw [hf] at hkey
    cases hkey
  | some n =>
    rw [hf] at hkey
    simp at hkey
    exact ⟨by omega, n, by omega, fun h => by omega⟩

/-- Witness for C6 amended at a concrete key. -/
theorem lineIndex_lower_bound_witness :
    ((2 : Int) ∈ (extractDiagnostics "line 3").map Prod.fst) ∧
      (-1 ≤ (2 : Int) ∧ ∃ n : Nat, (2 : Int) = (n : Int) - 1 ∧ (1 ≤ n → 0 ≤ (2 : Int))) :=
  ⟨by decide, lineIndex_lower_bound "line 3" 2 (by decide)⟩

/-- C7: the extraction is a pure function, so two runs on the same
stderr agree as whole maps, on their key sequences, and on the message
found at every key. -/
theorem extractDiagnostics_deterministic (s : String) :
    extractDiagnostics s = extractDiagnostics s ∧
    (extractDiagnostics s).map Prod.fst = (extractDiagnostics s).map Prod.fst ∧
    ∀ k : Int, (extractDiagnostics s).lookup k = (extractDiagnostics s).lookup k :=
  ⟨rfl, rfl, fun _ => rfl⟩

/-- Witness for C7 on a concrete stderr. -/
theorem extractDiagnostics_deterministic_witness :
    extractDiagnostics "line 7 oops" = extractDiagnostics "line 7 oops" ∧
    (extractDiagnostics "line 7 oops").map Prod.fst =
      (extractDiagnostics "line 7 oops").map Prod.fst ∧
    ∀ k : Int, (extractDiagnostics "line 7 oops").lookup k =
      (extractDiagnostics "line 7 oops").lookup k :=
  extractDiagnostics_deterministic "line 7 oops"

/-- C8: a rejected execution call is caught by runCode; the whole state,
and in particular the errors map and the output string, are unchanged. -/
theorem runCode_failure_state_unchanged (src e : String) (st : EditorState) :
    runCodeStep src (Except.error e) st = st ∧
    (runCodeStep src (Except.error e) st).errors = st.errors ∧
    (runCodeStep src (Except.error e) st).output = st.output := by
  have h : runCodeStep src (Except.error e) st = st := by
    unfold runCodeStep
    split <;> rfl
  exact ⟨h, by rw [h], by rw [h]⟩

/-- Witness for C8 on a concrete failed run. -/
theorem runCode_failure_state_unchanged_witness :
    runCodeStep "print(1)" (Except.error "network down")
        ⟨[(0, "old")], "old out"⟩ = ⟨[(0, "old")], "old out"⟩ ∧
      (runCodeStep "print(1)" (Except.error "network down")
        ⟨[(0, "old")], "old out"⟩).errors = [(0, "old")] ∧
      (runCodeStep "print(1)" (Except.error "network down")
        ⟨[(0, "old")], "old out"⟩).output = "old out" :=
  runCode_failure_state_unchanged "print(1)" "network down" ⟨[(0, "old")], "old out"⟩

/-- C9: the registry is static data: the snippet table has exactly the
six language ids in source order, each with a non-empty snippet; the
version table has exactly python and java; and lookups of any other id
return none instead of failing. -/
theorem language_registry_static :
    CODE_SNIPPETS.map Prod.fst =
      ["python", "java", "javascript", "typescript", "csharp", "php"] ∧
    (∀ p ∈ CODE_SNIPPETS, p.2 ≠ "") ∧
    LANGUAGE_VERSIONS.map Prod.fst = ["python", "java"] ∧
    (∀ lang : String, lang ∉ CODE_SNIPPETS.map Prod.fst → getSnippet lang = none) ∧
    (∀ lang : String, lang ∉ LANGUAGE_VERSIONS.map Prod.fst → getVersion lang = none) := by
  refine ⟨by decide, by decide, by decide, ?_, ?_⟩
  · intro lang h
    exact lookup_eq_none_of_not_mem_keys _ _ h
  · intro lang h
    exact lookup_eq_none_of_not_mem_keys _ _ h

/-- Witness for C9 at the unknown id "ruby". -/
theorem language_registry_static_witness :
    ("ruby" ∉ CODE_SNIPPETS.map Prod.fst) ∧ getSnippet "ruby" = none :=
  ⟨by decide, language_registry_static.2.2.2.1 "ruby" (by decide)⟩

/-- C10: diagnostics depend only on stderr — two successful results with
equal stderr produce equal errors maps whatever their stdout — and the
output state is stdout passed through verbatim (empty when absent). -/
theorem diagnostics_noninterference (src : String) (r1 r2 : RunOutcome)
    (st1 st2 : EditorState) (hsrc : src ≠ "") (hstderr : r1.stderr = r2.stderr) :
    (runCodeStep src (Except.ok r1) st1).errors =
      (runCodeStep src (Except.ok r2) st2).errors ∧
    (runCodeStep src (Except.ok r1) st1).output = r1.stdout.getD "" := by
  unfold runCodeStep
  rw [if_neg hsrc, if_neg hsrc]
  exact ⟨show extractDiagnosticsOpt r1.stderr = extractDiagnosticsOpt r2.stderr by
    rw [hstderr], rfl⟩

/-- Witness for C10: equal stderr, different stdout, equal errors maps. -/
theorem diagnostics_noninterference_witness :
    ("print(1)" ≠ "") ∧
    (RunOutcome.mk (some "hello") (some "err line 2")).stderr =
      (RunOutcome.mk (some "world") (some "err line 2")).stderr ∧
    ((runCodeStep "print(1)" (Except.ok ⟨some "hello", some "err line 2"⟩)
        ⟨[], ""⟩).errors =
      (runCodeStep "print(1)" (Except.ok ⟨some "world", some "err line 2"⟩)
        ⟨[], "old"⟩).errors ∧
     (runCodeStep "print(1)" (Except.ok ⟨some "hello", some "err line 2"⟩)
        ⟨[], ""⟩).output = "hello") :=
  ⟨by decide, rfl,
    diagnostics_noninterference "print(1)" ⟨some "hello", some "err line 2"⟩
      ⟨some "world", some "err line 2"⟩ ⟨[], ""⟩ ⟨[], "old"⟩ (by decide) rfl⟩

end CodeEditor
